import Mathlib

deriving instance DecidableEq for Except

/-!
Verification of the `bevy_i18n` locale core
(`src/crates/bevy_i18n/src/locale.rs`).

The development shallowly embeds the data model and the operations of the
crate: the `Locale` resource with its `set_main` / `set_fallback` mutators
and the `to_locale_asset_path` resolver, the `Language` wrapper around a
Unicode language identifier, and the error enums `LanguageError` and
`ToLocalePathError`.  Rust `String`s become Lean `String`s, fallible
operations return `Except`, the reachable abort in `set_fallback`
(`self.main.as_ref().unwrap()` on a `None` main) is modelled by an
`Option` result where `none` stands for the abort, and the non-fatal
collision warning emitted through the logging side channel is modelled as
a `Bool` paired with the updated state.
-/

namespace BevyI18n

/-! ### ASCII character classes and case mapping

Modelled from the spec: the language-identifier validator and the
canonical case mapping live in the external `unic_langid` crate, which is
not under `src/`.  Per spec section 4.1 and 6 a tag is
`language[-script][-region][-variant]` over ASCII subtags, validated and
case-normalised subtag by subtag. -/

def asciiIsUpper (c : Char) : Bool := decide (65 ≤ c.toNat ∧ c.toNat ≤ 90)

def asciiIsLower (c : Char) : Bool := decide (97 ≤ c.toNat ∧ c.toNat ≤ 122)

def asciiIsDigit (c : Char) : Bool := decide (48 ≤ c.toNat ∧ c.toNat ≤ 57)

def asciiIsAlpha (c : Char) : Bool := asciiIsUpper c || asciiIsLower c

def asciiIsAlphanum (c : Char) : Bool := asciiIsAlpha c || asciiIsDigit c

def asciiToLower (c : Char) : Char :=
  if h : 65 ≤ c.toNat ∧ c.toNat ≤ 90 then
    Char.ofNatAux (c.toNat + 32) (Or.inl (by omega))
  else c

def asciiToUpper (c : Char) : Char :=
  if h : 97 ≤ c.toNat ∧ c.toNat ≤ 122 then
    Char.ofNatAux (c.toNat - 32) (Or.inl (by omega))
  else c

theorem charOfNatAux_toNat (n : Nat) (h : Nat.isValidChar n) :
    (Char.ofNatAux n h).toNat = n := rfl

theorem asciiToLower_toNat {c : Char} (h : 65 ≤ c.toNat ∧ c.toNat ≤ 90) :
    (asciiToLower c).toNat = c.toNat + 32 := by
  unfold asciiToLower
  rw [dif_pos h]
  exact charOfNatAux_toNat _ _

theorem asciiToLower_eq_self {c : Char} (h : ¬(65 ≤ c.toNat ∧ c.toNat ≤ 90)) :
    asciiToLower c = c := by
  unfold asciiToLower
  exact dif_neg h

theorem asciiToUpper_toNat {c : Char} (h : 97 ≤ c.toNat ∧ c.toNat ≤ 122) :
    (asciiToUpper c).toNat = c.toNat - 32 := by
  unfold asciiToUpper
  rw [dif_pos h]
  exact charOfNatAux_toNat _ _

theorem asciiToUpper_eq_self {c : Char} (h : ¬(97 ≤ c.toNat ∧ c.toNat ≤ 122)) :
    asciiToUpper c = c := by
  unfold asciiToUpper
  exact dif_neg h

theorem asciiIsAlpha_asciiToLower {c : Char} (h : asciiIsAlpha c = true) :
    asciiIsAlpha (asciiToLower c) = true := by
  by_cases hu : 65 ≤ c.toNat ∧ c.toNat ≤ 90
  · have ht := asciiToLower_toNat hu
    simp only [asciiIsAlpha, asciiIsUpper, asciiIsLower, ht, Bool.or_eq_true,
      decide_eq_true_eq]
    omega
  · rwa [asciiToLower_eq_self hu]

theorem asciiIsAlpha_asciiToUpper {c : Char} (h : asciiIsAlpha c = true) :
    asciiIsAlpha (asciiToUpper c) = true := by
  by_cases hl : 97 ≤ c.toNat ∧ c.toNat ≤ 122
  · have ht := asciiToUpper_toNat hl
    simp only [asciiIsAlpha, asciiIsUpper, asciiIsLower, ht, Bool.or_eq_true,
      decide_eq_true_eq]
    omega
  · rwa [asciiToUpper_eq_self hl]

theorem asciiToLower_idem (c : Char) :
    asciiToLower (asciiToLower c) = asciiToLower c := by
  by_cases hu : 65 ≤ c.toNat ∧ c.toNat ≤ 90
  · have ht := asciiToLower_toNat hu
    apply asciiToLower_eq_self
    omega
  · rw [asciiToLower_eq_self hu, asciiToLower_eq_self hu]

theorem asciiToUpper_idem (c : Char) :
    asciiToUpper (asciiToUpper c) = asciiToUpper c := by
  by_cases hl : 97 ≤ c.toNat ∧ c.toNat ≤ 122
  · have ht := asciiToUpper_toNat hl
    apply asciiToUpper_eq_self
    omega
  · rw [asciiToUpper_eq_self hl, asciiToUpper_eq_self hl]

theorem asciiToLower_of_digit {c : Char} (h : asciiIsDigit c = true) :
    asciiToLower c = c := by
  simp only [asciiIsDigit, decide_eq_true_eq] at h
  apply asciiToLower_eq_self
  omega

theorem asciiToUpper_of_digit {c : Char} (h : asciiIsDigit c = true) :
    asciiToUpper c = c := by
  simp only [asciiIsDigit, decide_eq_true_eq] at h
  apply asciiToUpper_eq_self
  omega

theorem asciiIsDigit_asciiToLower {c : Char} (h : asciiIsDigit c = true) :
    asciiIsDigit (asciiToLower c) = true := by
  rwa [asciiToLower_of_digit h]

theorem asciiIsAlphanum_asciiToLower {c : Char} (h : asciiIsAlphanum c = true) :
    asciiIsAlphanum (asciiToLower c) = true := by
  simp only [asciiIsAlphanum, Bool.or_eq_true] at h ⊢
  rcases h with h | h
  · exact Or.inl (asciiIsAlpha_asciiToLower h)
  · exact Or.inr (asciiIsDigit_asciiToLower h)

theorem not_alpha_of_digit {c : Char} (h : asciiIsDigit c = true) :
    asciiIsAlpha c = false := by
  simp only [asciiIsDigit, decide_eq_true_eq] at h
  simp only [asciiIsAlpha, asciiIsUpper, asciiIsLower, Bool.or_eq_false_iff,
    decide_eq_false_iff_not]
  omega

theorem asciiIsAlphanum_ne_dash {c : Char} (h : asciiIsAlphanum c = true) :
    c ≠ '-' := by
  intro hc
  subst hc
  simp only [asciiIsAlphanum, asciiIsAlpha, asciiIsUpper, asciiIsLower,
    asciiIsDigit] at h
  revert h
  decide

theorem asciiIsAlphanum_ne_slash {c : Char} (h : asciiIsAlphanum c = true) :
    c ≠ '/' := by
  intro hc
  subst hc
  simp only [asciiIsAlphanum, asciiIsAlpha, asciiIsUpper, asciiIsLower,
    asciiIsDigit] at h
  revert h
  decide

theorem asciiIsAlphanum_of_alpha {c : Char} (h : asciiIsAlpha c = true) :
    asciiIsAlphanum c = true := by
  simp only [asciiIsAlphanum, Bool.or_eq_true]
  exact Or.inl h

theorem asciiIsAlphanum_of_digit {c : Char} (h : asciiIsDigit c = true) :
    asciiIsAlphanum c = true := by
  simp only [asciiIsAlphanum, Bool.or_eq_true]
  exact Or.inr h

/-! ### Subtags: validators and canonical case forms

Modelled from the spec: a subtag is a run of ASCII characters between
dashes; the language subtag is mandatory, script, region and variant are
optional (spec sections 4.1 and 6).  The shapes below follow the Unicode
language-identifier grammar the spec names: language is 2 to 3 or 5 to 8
letters, script is 4 letters, region is 2 letters or 3 digits, variant is
5 to 8 alphanumerics or 4 alphanumerics starting with a digit.  Canonical
forms: language and variant lowercase, script titlecase, region
uppercase. -/

abbrev Subtag := List Char

def isLanguageSubtag (t : Subtag) : Bool :=
  (decide (2 ≤ t.length ∧ t.length ≤ 3) || decide (5 ≤ t.length ∧ t.length ≤ 8))
    && t.all asciiIsAlpha

def isScriptSubtag (t : Subtag) : Bool :=
  decide (t.length = 4) && t.all asciiIsAlpha

def isRegionSubtag (t : Subtag) : Bool :=
  (decide (t.length = 2) && t.all asciiIsAlpha)
    || (decide (t.length = 3) && t.all asciiIsDigit)

def isVariantSubtag (t : Subtag) : Bool :=
  (decide (5 ≤ t.length ∧ t.length ≤ 8) && t.all asciiIsAlphanum)
    || (decide (t.length = 4) && asciiIsDigit (t.headD 'a') && t.all asciiIsAlphanum)

def canonLower (t : Subtag) : Subtag := t.map asciiToLower

def canonUpper (t : Subtag) : Subtag := t.map asciiToUpper

def canonTitle : Subtag → Subtag
  | [] => []
  | c :: cs => asciiToUpper c :: cs.map asciiToLower

theorem canonLower_length (t : Subtag) : (canonLower t).length = t.length := by
  simp [canonLower]

theorem canonUpper_length (t : Subtag) : (canonUpper t).length = t.length := by
  simp [canonUpper]

theorem canonTitle_length (t : Subtag) : (canonTitle t).length = t.length := by
  cases t with
  | nil => rfl
  | cons c cs => simp [canonTitle]

theorem canonLower_idem (t : Subtag) : canonLower (canonLower t) = canonLower t := by
  induction t with
  | nil => rfl
  | cons c cs ih =>
    simp only [canonLower, List.map_cons] at *
    rw [asciiToLower_idem]
    exact congrArg _ ih

theorem canonUpper_idem (t : Subtag) : canonUpper (canonUpper t) = canonUpper t := by
  induction t with
  | nil => rfl
  | cons c cs ih =>
    simp only [canonUpper, List.map_cons] at *
    rw [asciiToUpper_idem]
    exact congrArg _ ih

theorem map_asciiToLower_idem (t : List Char) :
    (t.map asciiToLower).map asciiToLower = t.map asciiToLower :=
  canonLower_idem t

theorem canonTitle_idem (t : Subtag) : canonTitle (canonTitle t) = canonTitle t := by
  cases t with
  | nil => rfl
  | cons c cs =>
    simp only [canonTitle]
    rw [asciiToUpper_idem, map_asciiToLower_idem]

theorem all_map_of_all {p q : Char → Bool} {f : Char → Char} {t : List Char}
    (hall : t.all p = true) (hf : ∀ c, p c = true → q (f c) = true) :
    (t.map f).all q = true := by
  simp only [List.all_eq_true, List.mem_map] at *
  rintro x ⟨c, hc, rfl⟩
  exact hf c (hall c hc)

theorem isLanguageSubtag_canonLower {t : Subtag} (h : isLanguageSubtag t = true) :
    isLanguageSubtag (canonLower t) = true := by
  simp only [isLanguageSubtag, Bool.and_eq_true] at h ⊢
  refine ⟨?_, ?_⟩
  · rw [canonLower_length]; exact h.1
  · exact all_map_of_all h.2 (fun c hc => asciiIsAlpha_asciiToLower hc)

theorem isScriptSubtag_canonTitle {t : Subtag} (h : isScriptSubtag t = true) :
    isScriptSubtag (canonTitle t) = true := by
  simp only [isScriptSubtag, Bool.and_eq_true, decide_eq_true_eq] at h ⊢
  obtain ⟨hlen, hall⟩ := h
  cases t with
  | nil => simp at hlen
  | cons c cs =>
    simp only [List.all_cons, Bool.and_eq_true] at hall
    constructor
    · rw [canonTitle_length]; exact hlen
    · simp only [canonTitle, List.all_cons, Bool.and_eq_true]
      exact ⟨asciiIsAlpha_asciiToUpper hall.1,
        all_map_of_all hall.2 (fun c hc => asciiIsAlpha_asciiToLower hc)⟩

theorem isRegionSubtag_canonUpper {t : Subtag} (h : isRegionSubtag t = true) :
    isRegionSubtag (canonUpper t) = true := by
  simp only [isRegionSubtag, Bool.or_eq_true, Bool.and_eq_true] at h ⊢
  rcases h with ⟨hlen, hall⟩ | ⟨hlen, hall⟩
  · refine Or.inl ⟨?_, ?_⟩
    · rw [canonUpper_length]; exact hlen
    · exact all_map_of_all hall (fun c hc => asciiIsAlpha_asciiToUpper hc)
  · refine Or.inr ⟨?_, ?_⟩
    · rw [canonUpper_length]; exact hlen
    · refine all_map_of_all hall (fun c hc => ?_)
      rwa [asciiToUpper_of_digit hc]

theorem isVariantSubtag_canonLower {t : Subtag} (h : isVariantSubtag t = true) :
    isVariantSubtag (canonLower t) = true := by
  simp only [isVariantSubtag, Bool.or_eq_true, Bool.and_eq_true] at h ⊢
  rcases h with ⟨hlen, hall⟩ | ⟨⟨hlen, hhead⟩, hall⟩
  · refine Or.inl ⟨?_, ?_⟩
    · rw [canonLower_length]; exact hlen
    · exact all_map_of_all hall (fun c hc => asciiIsAlphanum_asciiToLower hc)
  · refine Or.inr ⟨⟨?_, ?_⟩, ?_⟩
    · rw [canonLower_length]; exact hlen
    · cases t with
      | nil => exact hhead
      | cons c cs =>
        simp only [List.headD_cons] at hhead
        simp only [canonLower, List.map_cons, List.headD_cons]
        exact asciiIsDigit_asciiToLower hhead
    · exact all_map_of_all hall (fun c hc => asciiIsAlphanum_asciiToLower hc)

theorem isLanguageSubtag_alphanum {t : Subtag} (h : isLanguageSubtag t = true) :
    t.all asciiIsAlphanum = true := by
  simp only [isLanguageSubtag, Bool.and_eq_true, List.all_eq_true] at h ⊢
  exact fun c hc => asciiIsAlphanum_of_alpha (h.2 c hc)

theorem isScriptSubtag_alphanum {t : Subtag} (h : isScriptSubtag t = true) :
    t.all asciiIsAlphanum = true := by
  simp only [isScriptSubtag, Bool.and_eq_true, List.all_eq_true] at h ⊢
  exact fun c hc => asciiIsAlphanum_of_alpha (h.2 c hc)

theorem isRegionSubtag_alphanum {t : Subtag} (h : isRegionSubtag t = true) :
    t.all asciiIsAlphanum = true := by
  simp only [isRegionSubtag, Bool.or_eq_true, Bool.and_eq_true,
    List.all_eq_true] at h ⊢
  rcases h with ⟨_, hall⟩ | ⟨_, hall⟩
  · exact fun c hc => asciiIsAlphanum_of_alpha (hall c hc)
  · exact fun c hc => asciiIsAlphanum_of_digit (hall c hc)

theorem isVariantSubtag_alphanum {t : Subtag} (h : isVariantSubtag t = true) :
    t.all asciiIsAlphanum = true := by
  simp only [isVariantSubtag, Bool.or_eq_true, Bool.and_eq_true] at h
  rcases h with ⟨_, hall⟩ | ⟨_, hall⟩ <;> exact hall

theorem isRegionSubtag_not_script {t : Subtag} (h : isRegionSubtag t = true) :
    isScriptSubtag t = false := by
  simp only [isRegionSubtag, Bool.or_eq_true, Bool.and_eq_true,
    decide_eq_true_eq] at h
  simp only [isScriptSubtag, Bool.and_eq_false_iff, decide_eq_false_iff_not]
  rcases h with ⟨hlen, _⟩ | ⟨hlen, _⟩ <;> exact Or.inl (by omega)

theorem isVariantSubtag_not_script {t : Subtag} (h : isVariantSubtag t = true) :
    isScriptSubtag t = false := by
  simp only [isVariantSubtag, Bool.or_eq_true, Bool.and_eq_true,
    decide_eq_true_eq] at h
  rcases h with ⟨hlen, _⟩ | ⟨⟨hlen, hhead⟩, _⟩
  · simp only [isScriptSubtag, Bool.and_eq_false_iff, decide_eq_false_iff_not]
    exact Or.inl (by omega)
  · cases t with
    | nil => simp at hlen
    | cons c cs =>
      simp only [List.headD_cons] at hhead
      simp only [isScriptSubtag, Bool.and_eq_false_iff, List.all_cons,
        Bool.and_eq_false_iff]
      exact Or.inr (Or.inl (not_alpha_of_digit hhead))

theorem isVariantSubtag_not_region {t : Subtag} (h : isVariantSubtag t = true) :
    isRegionSubtag t = false := by
  simp only [isVariantSubtag, Bool.or_eq_true, Bool.and_eq_true,
    decide_eq_true_eq] at h
  simp only [isRegionSubtag, Bool.or_eq_false_iff, Bool.and_eq_false_iff,
    decide_eq_false_iff_not]
  rcases h with ⟨hlen, _⟩ | ⟨⟨hlen, _⟩, _⟩ <;>
    exact ⟨Or.inl (by omega), Or.inl (by omega)⟩

/-! ### Splitting a tag into dash-separated subtags and joining back -/

def splitDash : List Char → List Subtag
  | [] => [[]]
  | c :: cs =>
    if c = '-' then [] :: splitDash cs
    else
      match splitDash cs with
      | [] => [[c]]
      | seg :: rest => (c :: seg) :: rest

def joinDash : List Subtag → List Char
  | [] => []
  | [t] => t
  | t :: ts => t ++ '-' :: joinDash ts

theorem splitDash_ne_nil (l : List Char) : splitDash l ≠ [] := by
  induction l with
  | nil => simp [splitDash]
  | cons c cs ih =>
    simp only [splitDash]
    split
    · simp
    · split
      · simp
      · simp

theorem splitDash_no_dash {t : List Char} (h : '-' ∉ t) : splitDash t = [t] := by
  induction t with
  | nil => rfl
  | cons c cs ih =>
    simp only [List.mem_cons, not_or] at h
    have hc : ¬ c = '-' := fun hc => h.1 hc.symm
    simp only [splitDash, if_neg hc, ih h.2]

theorem splitDash_append_dash {t : List Char} (l : List Char) (h : '-' ∉ t) :
    splitDash (t ++ '-' :: l) = t :: splitDash l := by
  induction t with
  | nil => simp [splitDash]
  | cons c cs ih =>
    simp only [List.mem_cons, not_or] at h
    have hc : ¬ c = '-' := fun hc => h.1 hc.symm
    have hrec := ih h.2
    simp only [List.cons_append, splitDash, List.append_eq] at *
    rw [if_neg hc, hrec]

theorem splitDash_joinDash {segs : List Subtag} (hne : segs ≠ [])
    (hnd : ∀ t ∈ segs, '-' ∉ t) : splitDash (joinDash segs) = segs := by
  induction segs with
  | nil => exact absurd rfl hne
  | cons t ts ih =>
    cases ts with
    | nil =>
      simp only [joinDash]
      exact splitDash_no_dash (hnd t (List.mem_cons_self t []))
    | cons u us =>
      have hj : joinDash (t :: u :: us) = t ++ '-' :: joinDash (u :: us) := rfl
      rw [hj, splitDash_append_dash _ (hnd t (List.mem_cons_self t _))]
      rw [ih (by simp) (fun x hx => hnd x (List.mem_cons_of_mem t hx))]

/-! ### Language identifiers: the parsed, canonicalised tag -/

/-- Embeds `enum LanguageError` of `locale.rs` (lines 77 to 87): an error
that might happen while creating a `Language`. -/
inductive LanguageError where
  | Unknown
  | InvalidLanguage
  | InvalidSubtag
deriving DecidableEq

/-- Modelled from the spec: `unic_langid::LanguageIdentifier`, the type
wrapped by the `Language` struct of `locale.rs`, is an external crate not
under `src/`.  Per spec sections 3, 4.1 and 6 it stores a validated
identifier made of a mandatory language subtag plus optional script,
region and variant subtags, each held in canonical case form. -/
structure LanguageIdentifier where
  language : Subtag
  script : Option Subtag
  region : Option Subtag
  variant : Option Subtag
deriving DecidableEq

/-- Modelled from the spec: the subtag-by-subtag validation loop of the
external parser.  After the language subtag, each further subtag is tried
as a script (only first, position 0), then as a region (positions up to
1), then as a variant (positions up to 2); anything else is an invalid
subtag.  Accepted subtags are stored in canonical case form. -/
def parseSubtagsTail :
    List Subtag → Nat → Except LanguageError (Option Subtag × Option Subtag × Option Subtag)
  | [], _ => .ok (none, none, none)
  | seg :: rest, pos =>
    if pos = 0 ∧ isScriptSubtag seg = true then
      match parseSubtagsTail rest 1 with
      | .ok (_, re, va) => .ok (some (canonTitle seg), re, va)
      | .error e => .error e
    else if pos ≤ 1 ∧ isRegionSubtag seg = true then
      match parseSubtagsTail rest 2 with
      | .ok (_, _, va) => .ok (none, some (canonUpper seg), va)
      | .error e => .error e
    else if pos ≤ 2 ∧ isVariantSubtag seg = true then
      match parseSubtagsTail rest 3 with
      | .ok _ => .ok (none, none, some (canonLower seg))
      | .error e => .error e
    else .error .InvalidSubtag

/-- Modelled from the spec: `unic_langid::LanguageIdentifier::from_str`
(external crate).  Splits on dashes; the first subtag must be a valid
language subtag, otherwise the parse fails with `InvalidLanguage`; the
remaining subtags are classified by `parseSubtagsTail`, any failure there
being an `InvalidSubtag`.  Total on every input string, including the
empty and non-ASCII ones: there is no abort path. -/
def parseLanguageIdentifier (s : List Char) : Except LanguageError LanguageIdentifier :=
  match splitDash s with
  | [] => .error .InvalidLanguage
  | lang :: rest =>
    if isLanguageSubtag lang = true then
      match parseSubtagsTail rest 0 with
      | .ok (sc, re, va) => .ok ⟨canonLower lang, sc, re, va⟩
      | .error e => .error e
    else .error .InvalidLanguage

/-- Modelled from the spec: the canonical serialized form produced by the
Display implementation of the external identifier type, used by
`Language::get_name`.  Joins the canonical subtags with dashes. -/
def canonicalForm (lid : LanguageIdentifier) : List Char :=
  joinDash ([lid.language] ++ lid.script.toList ++ lid.region.toList ++ lid.variant.toList)

/-- Embeds `pub struct Language(unic_langid::LanguageIdentifier)` of
`locale.rs` (line 61).  Equality is structural, as the derived `PartialEq`
of the source. -/
structure Language where
  id : LanguageIdentifier
deriving DecidableEq

/-- Embeds `Language::new` of `locale.rs` (lines 173 to 178) composed with
the error conversion of lines 186 to 200: parse the code with the
identifier parser and map its error onto `LanguageError` (the conversion
keeps `Unknown`, `InvalidLanguage` and `InvalidSubtag` one to one, which
the model's parser already emits). -/
def Language.new (lang : String) : Except LanguageError Language :=
  match parseLanguageIdentifier lang.data with
  | .ok lid => .ok ⟨lid⟩
  | .error e => .error e

/-- Embeds `Language::get_name` of `locale.rs` (lines 181 to 183): the
canonical serialized form of the wrapped identifier. -/
def Language.get_name (l : Language) : String :=
  ⟨canonicalForm l.id⟩

/-! ### Canonical identifiers and the reparse lemmas -/

def optCheck (p : Subtag → Bool) : Option Subtag → Bool
  | none => true
  | some t => p t

def isCanonLanguage (t : Subtag) : Bool :=
  isLanguageSubtag t && decide (canonLower t = t)

def isCanonScript (t : Subtag) : Bool :=
  isScriptSubtag t && decide (canonTitle t = t)

def isCanonRegion (t : Subtag) : Bool :=
  isRegionSubtag t && decide (canonUpper t = t)

def isCanonVariant (t : Subtag) : Bool :=
  isVariantSubtag t && decide (canonLower t = t)

def LanguageIdentifier.isCanon (lid : LanguageIdentifier) : Bool :=
  isCanonLanguage lid.language && optCheck isCanonScript lid.script
    && optCheck isCanonRegion lid.region && optCheck isCanonVariant lid.variant

theorem isCanonLanguage_canonLower {t : Subtag} (h : isLanguageSubtag t = true) :
    isCanonLanguage (canonLower t) = true := by
  simp only [isCanonLanguage, Bool.and_eq_true, decide_eq_true_eq]
  exact ⟨isLanguageSubtag_canonLower h, canonLower_idem t⟩

theorem isCanonScript_canonTitle {t : Subtag} (h : isScriptSubtag t = true) :
    isCanonScript (canonTitle t) = true := by
  simp only [isCanonScript, Bool.and_eq_true, decide_eq_true_eq]
  exact ⟨isScriptSubtag_canonTitle h, canonTitle_idem t⟩

theorem isCanonRegion_canonUpper {t : Subtag} (h : isRegionSubtag t = true) :
    isCanonRegion (canonUpper t) = true := by
  simp only [isCanonRegion, Bool.and_eq_true, decide_eq_true_eq]
  exact ⟨isRegionSubtag_canonUpper h, canonUpper_idem t⟩

theorem isCanonVariant_canonLower {t : Subtag} (h : isVariantSubtag t = true) :
    isCanonVariant (canonLower t) = true := by
  simp only [isCanonVariant, Bool.and_eq_true, decide_eq_true_eq]
  exact ⟨isVariantSubtag_canonLower h, canonLower_idem t⟩

theorem parseSubtagsTail_error (segs : List Subtag) (pos : Nat) {e : LanguageError}
    (h : parseSubtagsTail segs pos = .error e) : e = .InvalidSubtag := by
  induction segs generalizing pos with
  | nil => simp [parseSubtagsTail] at h
  | cons seg rest ih =>
    simp only [parseSubtagsTail] at h
    split at h
    · cases hrec : parseSubtagsTail rest 1 with
      | ok v => rw [hrec] at h; obtain ⟨_, _, _⟩ := v; simp at h
      | error e' => rw [hrec] at h; simp at h; exact ih 1 (h ▸ hrec)
    · split at h
      · cases hrec : parseSubtagsTail rest 2 with
        | ok v => rw [hrec] at h; obtain ⟨_, _, _⟩ := v; simp at h
        | error e' => rw [hrec] at h; simp at h; exact ih 2 (h ▸ hrec)
      · split at h
        · cases hrec : parseSubtagsTail rest 3 with
          | ok v => rw [hrec] at h; simp at h
          | error e' => rw [hrec] at h; simp at h; exact ih 3 (h ▸ hrec)
        · simp only [Except.error.injEq] at h
          exact h.symm

theorem parseSubtagsTail_canon (segs : List Subtag) (pos : Nat)
    {sc re va : Option Subtag}
    (h : parseSubtagsTail segs pos = .ok (sc, re, va)) :
    optCheck isCanonScript sc = true ∧ optCheck isCanonRegion re = true ∧
      optCheck isCanonVariant va = true := by
  induction segs generalizing pos sc re va with
  | nil =>
    simp only [parseSubtagsTail, Except.ok.injEq, Prod.mk.injEq] at h
    obtain ⟨h1, h2, h3⟩ := h
    subst h1; subst h2; subst h3
    exact ⟨rfl, rfl, rfl⟩
  | cons seg rest ih =>
    simp only [parseSubtagsTail] at h
    split at h
    · rename_i hcond
      cases hrec : parseSubtagsTail rest 1 with
      | ok v =>
        obtain ⟨sc', re', va'⟩ := v
        rw [hrec] at h
        simp only [Except.ok.injEq, Prod.mk.injEq] at h
        obtain ⟨h1, h2, h3⟩ := h
        subst h1; subst h2; subst h3
        obtain ⟨_, hre, hva⟩ := ih 1 hrec
        exact ⟨isCanonScript_canonTitle hcond.2, hre, hva⟩
      | error e' => rw [hrec] at h; simp at h
    · split at h
      · rename_i hcond
        cases hrec : parseSubtagsTail rest 2 with
        | ok v =>
          obtain ⟨sc', re', va'⟩ := v
          rw [hrec] at h
          simp only [Except.ok.injEq, Prod.mk.injEq] at h
          obtain ⟨h1, h2, h3⟩ := h
          subst h1; subst h2; subst h3
          obtain ⟨_, _, hva⟩ := ih 2 hrec
          exact ⟨rfl, isCanonRegion_canonUpper hcond.2, hva⟩
        | error e' => rw [hrec] at h; simp at h
      · split at h
        · rename_i hcond
          cases hrec : parseSubtagsTail rest 3 with
          | ok v =>
            rw [hrec] at h
            simp only [Except.ok.injEq, Prod.mk.injEq] at h
            obtain ⟨h1, h2, h3⟩ := h
            subst h1; subst h2; subst h3
            exact ⟨rfl, rfl, isCanonVariant_canonLower hcond.2⟩
          | error e' => rw [hrec] at h; simp at h
        · simp at h

theorem no_dash_of_alphanum {t : Subtag} (h : t.all asciiIsAlphanum = true) :
    '-' ∉ t := by
  simp only [List.all_eq_true] at h
  intro hmem
  exact asciiIsAlphanum_ne_dash (h _ hmem) rfl

theorem parseSubtagsTail_variant (va : Option Subtag) (pos : Nat)
    (hpos : pos ≤ 2) (hva : optCheck isCanonVariant va = true) :
    parseSubtagsTail va.toList pos = .ok (none, none, va) := by
  cases va with
  | none => rfl
  | some v =>
    simp only [optCheck, isCanonVariant, Bool.and_eq_true, decide_eq_true_eq] at hva
    obtain ⟨hvalid, hfix⟩ := hva
    have hns := isVariantSubtag_not_script hvalid
    have hnr := isVariantSubtag_not_region hvalid
    simp only [Option.toList_some, parseSubtagsTail]
    rw [if_neg (by simp [hns]), if_neg (by simp [hnr]),
      if_pos ⟨hpos, hvalid⟩]
    simp only [parseSubtagsTail, hfix]

theorem parseSubtagsTail_region_variant (re va : Option Subtag) (pos : Nat)
    (hpos : pos ≤ 1) (hre : optCheck isCanonRegion re = true)
    (hva : optCheck isCanonVariant va = true) :
    parseSubtagsTail (re.toList ++ va.toList) pos = .ok (none, re, va) := by
  cases re with
  | none =>
    simp only [Option.toList_none, List.nil_append]
    exact parseSubtagsTail_variant va pos (by omega) hva
  | some r =>
    simp only [optCheck, isCanonRegion, Bool.and_eq_true, decide_eq_true_eq] at hre
    obtain ⟨hvalid, hfix⟩ := hre
    have hns := isRegionSubtag_not_script hvalid
    simp only [Option.toList_some, List.cons_append, List.nil_append,
      List.append_eq, parseSubtagsTail]
    rw [if_neg (by simp [hns]), if_pos ⟨hpos, hvalid⟩,
      parseSubtagsTail_variant va 2 (by omega) hva, hfix]

theorem parseSubtagsTail_canonical (sc re va : Option Subtag)
    (hsc : optCheck isCanonScript sc = true)
    (hre : optCheck isCanonRegion re = true)
    (hva : optCheck isCanonVariant va = true) :
    parseSubtagsTail (sc.toList ++ re.toList ++ va.toList) 0 = .ok (sc, re, va) := by
  cases sc with
  | none =>
    simp only [Option.toList_none, List.nil_append]
    exact parseSubtagsTail_region_variant re va 0 (by omega) hre hva
  | some s =>
    simp only [optCheck, isCanonScript, Bool.and_eq_true, decide_eq_true_eq] at hsc
    obtain ⟨hvalid, hfix⟩ := hsc
    simp only [Option.toList_some, List.cons_append, List.nil_append,
      List.append_eq, parseSubtagsTail]
    rw [if_pos ⟨trivial, hvalid⟩,
      parseSubtagsTail_region_variant re va 1 (by omega) hre hva, hfix]

theorem canonicalForm_segments (lid : LanguageIdentifier) :
    canonicalForm lid =
      joinDash (lid.language ::
        (lid.script.toList ++ lid.region.toList ++ lid.variant.toList)) := by
  simp only [canonicalForm, List.cons_append, List.nil_append, List.append_assoc]

theorem isCanon_no_dash {lid : LanguageIdentifier} (h : lid.isCanon = true) :
    ∀ t ∈ lid.language ::
        (lid.script.toList ++ lid.region.toList ++ lid.variant.toList),
      '-' ∉ t := by
  simp only [LanguageIdentifier.isCanon, Bool.and_eq_true] at h
  obtain ⟨⟨⟨hlang, hsc⟩, hre⟩, hva⟩ := h
  intro t ht
  simp only [List.mem_cons, List.mem_append] at ht
  rcases ht with rfl | (ht | ht) | ht
  · simp only [isCanonLanguage, Bool.and_eq_true] at hlang
    exact no_dash_of_alphanum (isLanguageSubtag_alphanum hlang.1)
  · cases hs : lid.script with
    | none => rw [hs] at ht; simp at ht
    | some x =>
      rw [hs] at ht hsc
      simp only [Option.toList_some, List.mem_singleton] at ht
      subst ht
      simp only [optCheck, isCanonScript, Bool.and_eq_true] at hsc
      exact no_dash_of_alphanum (isScriptSubtag_alphanum hsc.1)
  · cases hr : lid.region with
    | none => rw [hr] at ht; simp at ht
    | some x =>
      rw [hr] at ht hre
      simp only [Option.toList_some, List.mem_singleton] at ht
      subst ht
      simp only [optCheck, isCanonRegion, Bool.and_eq_true] at hre
      exact no_dash_of_alphanum (isRegionSubtag_alphanum hre.1)
  · cases hv : lid.variant with
    | none => rw [hv] at ht; simp at ht
    | some x =>
      rw [hv] at ht hva
      simp only [Option.toList_some, List.mem_singleton] at ht
      subst ht
      simp only [optCheck, isCanonVariant, Bool.and_eq_true] at hva
      exact no_dash_of_alphanum (isVariantSubtag_alphanum hva.1)

theorem parse_canonicalForm {lid : LanguageIdentifier} (h : lid.isCanon = true) :
    parseLanguageIdentifier (canonicalForm lid) = .ok lid := by
  have hsplit : splitDash (canonicalForm lid) =
      lid.language ::
        (lid.script.toList ++ lid.region.toList ++ lid.variant.toList) := by
    rw [canonicalForm_segments]
    exact splitDash_joinDash (by simp) (isCanon_no_dash h)
  simp only [LanguageIdentifier.isCanon, Bool.and_eq_true] at h
  obtain ⟨⟨⟨hlang, hsc⟩, hre⟩, hva⟩ := h
  simp only [isCanonLanguage, Bool.and_eq_true, decide_eq_true_eq] at hlang
  simp only [parseLanguageIdentifier, hsplit]
  rw [if_pos hlang.1, parseSubtagsTail_canonical _ _ _ hsc hre hva, hlang.2]

theorem parse_isCanon {s : List Char} {lid : LanguageIdentifier}
    (h : parseLanguageIdentifier s = .ok lid) : lid.isCanon = true := by
  unfold parseLanguageIdentifier at h
  split at h
  · simp at h
  · rename_i lang rest hsp
    split at h
    · rename_i hl
      split at h
      · rename_i sc re va hrec
        simp only [Except.ok.injEq] at h
        subst h
        obtain ⟨hsc, hre, hva⟩ := parseSubtagsTail_canon rest 0 hrec
        simp only [LanguageIdentifier.isCanon, Bool.and_eq_true]
        exact ⟨⟨⟨isCanonLanguage_canonLower hl, hsc⟩, hre⟩, hva⟩
      · simp at h
    · simp at h

/-! ### Asset paths

Modelled from the spec: `bevy_asset::AssetPath` and `AssetSourceId` are
code of this repository that is not under `src/`.  Per spec section 6 a
resource path is a value carrying a path string, an optional named
source/origin identifier, and an optional sub-resource label.  A `none`
source stands for `AssetSourceId::Default`, a `some` for
`AssetSourceId::Name`. -/
structure AssetPath where
  source : Option String
  path : String
  label : Option String
deriving DecidableEq

/-- Modelled from the spec: `AssetPath::from(String)` for the freshly
joined path string of the resolver; it carries the given path component
and no source or label yet (section 6: a path value plus optional source
and label; the resolver re-attaches the metadata afterwards). -/
def assetPathFromString (p : String) : AssetPath :=
  { source := none, path := p, label := none }

/-- Modelled from the spec: `AssetPath::with_source` replaces the source
identifier, leaving path and label alone. -/
def AssetPath.with_source (ap : AssetPath) (name : String) : AssetPath :=
  { ap with source := some name }

/-- Modelled from the spec: `AssetPath::with_label` replaces the label,
leaving path and source alone. -/
def AssetPath.with_label (ap : AssetPath) (label : String) : AssetPath :=
  { ap with label := some label }

/-- Embeds `std::path::PathBuf::from(base).join(p)` under Unix path
semantics, at the string level: joining an absolute path replaces the
base entirely (std documentation of `Path::join`); otherwise a separator
is inserted unless the base is empty or already ends with one. -/
def pathJoin (base p : String) : String :=
  if p.data.head? = some '/' then p
  else if base.data = [] then p
  else if base.data.getLast? = some '/' then base ++ p
  else base ++ "/" ++ p

/-- Embeds `enum ToLocalePathError` of `locale.rs` (lines 66 to 73),
spelling included.  `PathIsNonUTF8` is kept for fidelity; a Lean `String`
is valid UTF-8 by construction, so in this embedding the variant is
unreachable (in the source it can only arise from a non-UTF-8 platform
path, which a `String`-based model cannot represent). -/
inductive ToLocalePathError where
  | PathIsNonUTF8
  | NoMainLanguague
deriving DecidableEq

/-! ### The locale resource -/

/-- Embeds `struct Locale<Languages>` of `locale.rs` (lines 33 to 43).
The `PhantomData` marker carries no runtime payload and is omitted; the
generic `Languages` parameter and its `From` conversion enter the model
as an explicit mapping at the call sites that need it. -/
structure Locale where
  main : Option Language
  fallback : Language
deriving DecidableEq

/-- Embeds `impl Default for Locale<Languages>` of `locale.rs` (lines 45
to 57): no main language, fallback is the conversion of the default value
of `Languages`. -/
def Locale.default (Languages : Type) [Inhabited Languages]
    (map : Languages → Language) : Locale :=
  { main := none, fallback := map Inhabited.default }

/-- Embeds `Locale::set_main` of `locale.rs` (lines 95 to 104).  The
argument is the already-converted `Language` value (`main.into()`).  The
returned `Bool` models the collision warning emitted on the logging side
channel: after the assignment the code compares the fallback with the
freshly set main (`self.main.as_ref().unwrap()` cannot abort here since
`main` was just assigned `Some`). -/
def Locale.set_main (s : Locale) (mainLang : Language) : Locale × Bool :=
  let s' : Locale := { s with main := some mainLang }
  (s', decide (s'.fallback = mainLang))

/-- Embeds `Locale::set_fallback` of `locale.rs` (lines 107 to 116).  The
code assigns the new fallback and then compares it against
`self.main.as_ref().unwrap()` unconditionally; when `main` is `None` that
unwrap aborts the call, which the model renders as `none`.  Otherwise the
result carries the updated state and the collision-warning flag. -/
def Locale.set_fallback (s : Locale) (fallbackLang : Language) :
    Option (Locale × Bool) :=
  let s' : Locale := { s with fallback := fallbackLang }
  match s'.main with
  | some m => some (s', decide (s'.fallback = m))
  | none => none

/-- Embeds the metadata-restoring tail of `Locale::to_locale_asset_path`
(`locale.rs` lines 153 to 165): build a fresh `AssetPath` from the joined
path string, then re-attach the named source (if the original had one)
and the label (if the original had one). -/
def rebuildAssetPath (orig : AssetPath) (p : String) : AssetPath :=
  let newPath := assetPathFromString p
  let newPath :=
    match orig.source with
    | some name => newPath.with_source name
    | none => newPath
  match orig.label with
  | some label => newPath.with_label label
  | none => newPath

/-- Embeds `Locale::to_locale_asset_path` of `locale.rs` (lines 136 to
167): pick the fallback language when `use_fallback` is set, else the
main language, failing with `NoMainLanguague` when the main language is
unset; prepend the language name to the path with `PathBuf::join`; then
restore source and label.  The `path.to_str()` UTF-8 check of line 153
always succeeds here because the model's paths are `String`s, so the
`PathIsNonUTF8` exit (line 166) is unreachable in the embedding. -/
def Locale.to_locale_asset_path (s : Locale) (asset_path : AssetPath)
    (use_fallback : Bool) : Except ToLocalePathError AssetPath :=
  if use_fallback then
    .ok (rebuildAssetPath asset_path
      (pathJoin s.fallback.get_name asset_path.path))
  else
    match s.main with
    | some mainLang =>
        .ok (rebuildAssetPath asset_path
          (pathJoin mainLang.get_name asset_path.path))
    | none => .error .NoMainLanguague

/-! ### Wellformed languages and path-shape helper lemmas

The spec (section 3) makes `LanguageTag` constructible only through the
validating parse, so every `Language` held by a `Locale` satisfies the
subtag validators.  `wfCheck` captures exactly that invariant; parsed
identifiers satisfy it. -/

def LanguageIdentifier.wfCheck (lid : LanguageIdentifier) : Bool :=
  isLanguageSubtag lid.language && optCheck isScriptSubtag lid.script
    && optCheck isRegionSubtag lid.region && optCheck isVariantSubtag lid.variant

def Language.wf (l : Language) : Bool :=
  l.id.wfCheck

theorem joinDash_mem {segs : List Subtag} {c : Char} (h : c ∈ joinDash segs) :
    (∃ t ∈ segs, c ∈ t) ∨ c = '-' := by
  induction segs with
  | nil => simp [joinDash] at h
  | cons t ts ih =>
    cases ts with
    | nil =>
      simp only [joinDash] at h
      exact Or.inl ⟨t, List.mem_cons_self t [], h⟩
    | cons u us =>
      have hj : joinDash (t :: u :: us) = t ++ '-' :: joinDash (u :: us) := rfl
      rw [hj] at h
      simp only [List.mem_append, List.mem_cons] at h
      rcases h with h | h | h
      · exact Or.inl ⟨t, List.mem_cons_self t _, h⟩
      · exact Or.inr h
      · rcases ih h with ⟨x, hx, hc⟩ | h
        · exact Or.inl ⟨x, List.mem_cons_of_mem t hx, hc⟩
        · exact Or.inr h

theorem wfCheck_segments_alphanum {lid : LanguageIdentifier}
    (h : lid.wfCheck = true) :
    ∀ t ∈ lid.language ::
        (lid.script.toList ++ lid.region.toList ++ lid.variant.toList),
      t.all asciiIsAlphanum = true := by
  simp only [LanguageIdentifier.wfCheck, Bool.and_eq_true] at h
  obtain ⟨⟨⟨hlang, hsc⟩, hre⟩, hva⟩ := h
  intro t ht
  simp only [List.mem_cons, List.mem_append] at ht
  rcases ht with rfl | (ht | ht) | ht
  · exact isLanguageSubtag_alphanum hlang
  · cases hs : lid.script with
    | none => rw [hs] at ht; simp at ht
    | some x =>
      rw [hs] at ht hsc
      simp only [Option.toList_some, List.mem_singleton] at ht
      subst ht
      exact isScriptSubtag_alphanum hsc
  · cases hr : lid.region with
    | none => rw [hr] at ht; simp at ht
    | some x =>
      rw [hr] at ht hre
      simp only [Option.toList_some, List.mem_singleton] at ht
      subst ht
      exact isRegionSubtag_alphanum hre
  · cases hv : lid.variant with
    | none => rw [hv] at ht; simp at ht
    | some x =>
      rw [hv] at ht hva
      simp only [Option.toList_some, List.mem_singleton] at ht
      subst ht
      exact isVariantSubtag_alphanum hva

theorem wfCheck_no_slash {lid : LanguageIdentifier} (h : lid.wfCheck = true) :
    ∀ c ∈ canonicalForm lid, c ≠ '/' := by
  intro c hc
  rw [canonicalForm_segments] at hc
  rcases joinDash_mem hc with ⟨t, ht, hct⟩ | rfl
  · have := wfCheck_segments_alphanum h t ht
    simp only [List.all_eq_true] at this
    exact asciiIsAlphanum_ne_slash (this c hct)
  · decide

theorem wfCheck_canonicalForm_ne_nil {lid : LanguageIdentifier}
    (h : lid.wfCheck = true) : canonicalForm lid ≠ [] := by
  simp only [LanguageIdentifier.wfCheck, Bool.and_eq_true] at h
  have hlang := h.1.1.1
  simp only [isLanguageSubtag, Bool.and_eq_true, Bool.or_eq_true,
    decide_eq_true_eq] at hlang
  have hne : lid.language ≠ [] := by
    intro hnil
    rw [hnil] at hlang
    simp at hlang
  rw [canonicalForm_segments]
  cases hrest : lid.script.toList ++ lid.region.toList ++ lid.variant.toList with
  | nil => simpa [joinDash] using hne
  | cons u us => simp [joinDash]

theorem wf_get_name_ne_nil {l : Language} (h : l.wf = true) :
    l.get_name.data ≠ [] :=
  wfCheck_canonicalForm_ne_nil h

theorem wf_get_name_getLast {l : Language} (h : l.wf = true) :
    l.get_name.data.getLast? ≠ some '/' := by
  intro hl
  have hmem : '/' ∈ l.get_name.data := List.mem_of_getLast?_eq_some hl
  exact wfCheck_no_slash h '/' hmem rfl

theorem pathJoin_eq {base p : String} (hp : p.data.head? ≠ some '/')
    (hb : base.data ≠ []) (hl : base.data.getLast? ≠ some '/') :
    pathJoin base p = base ++ "/" ++ p := by
  unfold pathJoin
  rw [if_neg hp, if_neg hb, if_neg hl]

theorem rebuildAssetPath_path (orig : AssetPath) (p : String) :
    (rebuildAssetPath orig p).path = p := by
  unfold rebuildAssetPath assetPathFromString AssetPath.with_source AssetPath.with_label
  cases orig.source <;> cases orig.label <;> rfl

theorem rebuildAssetPath_source (orig : AssetPath) (p : String) :
    (rebuildAssetPath orig p).source = orig.source := by
  unfold rebuildAssetPath assetPathFromString AssetPath.with_source AssetPath.with_label
  cases hs : orig.source <;> cases orig.label <;> simp

theorem rebuildAssetPath_label (orig : AssetPath) (p : String) :
    (rebuildAssetPath orig p).label = orig.label := by
  unfold rebuildAssetPath assetPathFromString AssetPath.with_source AssetPath.with_label
  cases orig.source <;> cases hl : orig.label <;> simp

/-! ### Concrete language values used by the claims -/

def langFr : Language := ⟨⟨['f', 'r'], none, none, none⟩⟩

def langEn : Language := ⟨⟨['e', 'n'], none, none, none⟩⟩

def langEs : Language := ⟨⟨['e', 's'], none, none, none⟩⟩

def langFrCA : Language := ⟨⟨['f', 'r'], none, some ['C', 'A'], none⟩⟩

/-! ### The claims -/

/-- C1.  The claim states that with `main` unset, `set_fallback` sets the
fallback and returns without faulting.  The code does the opposite: it
evaluates `self.main.as_ref().unwrap()` unconditionally after the
assignment, which aborts whenever `main` is `None`.  This theorem
evaluates the embedded code at every such state: the call yields `none`
(the modelled abort) instead of an updated state. -/
theorem set_fallback_aborts_without_main (fb lang : Language) :
    Locale.set_fallback ⟨none, fb⟩ lang = none := rfl

/-- C2.  With `use_fallback = false` the resolver fails with
`NoMainLanguague` exactly when the main language is unset, and with
`use_fallback = true` it never returns that error. -/
theorem resolve_noMainLanguague_iff (loc : Locale) (ap : AssetPath) :
    (loc.to_locale_asset_path ap false = .error .NoMainLanguague ↔
      loc.main = none) ∧
    loc.to_locale_asset_path ap true ≠ .error .NoMainLanguague := by
  refine ⟨⟨?_, ?_⟩, ?_⟩
  · intro h
    cases hm : loc.main with
    | none => rfl
    | some m => simp [Locale.to_locale_asset_path, hm] at h
  · intro hm
    simp [Locale.to_locale_asset_path, hm]
  · simp [Locale.to_locale_asset_path]

/-- C3, counterexample.  The claim quantifies over every base path, but
`PathBuf::join` replaces the base when the joined path is absolute, so an
input whose path component starts with a separator comes back without the
language segment: with main `fr-CA`, resolving `"/ui/button.png"` with
`use_fallback = false` succeeds and returns `"/ui/button.png"` unchanged,
not the tag-prefixed path. -/
theorem resolve_absolute_path_counterexample :
    Locale.to_locale_asset_path ⟨some langFrCA, langEn⟩
        ⟨none, "/ui/button.png", none⟩ false
      = .ok ⟨none, "/ui/button.png", none⟩ ∧
    ("/ui/button.png" : String) ≠ langFrCA.get_name ++ "/" ++ "/ui/button.png" :=
  ⟨by decide, by decide⟩

/-- C3, amended.  For every locale holding validly parsed languages and
every input whose path component does not begin with a separator, a
successful resolve returns the selected language name prepended as a new
leading path segment; the two concrete examples of the claim hold as
stated. -/
theorem resolve_prepends_language_segment :
    (∀ (loc : Locale) (ap : AssetPath) (uf : Bool) (out : AssetPath),
        loc.fallback.wf = true →
        (∀ m, loc.main = some m → m.wf = true) →
        ap.path.data.head? ≠ some '/' →
        loc.to_locale_asset_path ap uf = .ok out →
        (uf = true → out.path = loc.fallback.get_name ++ "/" ++ ap.path) ∧
        (uf = false →
          ∃ m, loc.main = some m ∧
            out.path = m.get_name ++ "/" ++ ap.path)) ∧
    Locale.to_locale_asset_path ⟨none, langEn⟩ ⟨none, "ui/button.png", none⟩ true
      = .ok ⟨none, "en/ui/button.png", none⟩ ∧
    Locale.to_locale_asset_path ⟨some langFrCA, langEn⟩
        ⟨none, "ui/button.png", none⟩ false
      = .ok ⟨none, "fr-CA/ui/button.png", none⟩ := by
  refine ⟨?_, by decide, by decide⟩
  intro loc ap uf out hwfF hwfM hp h
  cases uf with
  | true =>
    have h2 : rebuildAssetPath ap (pathJoin loc.fallback.get_name ap.path) = out := by
      simpa [Locale.to_locale_asset_path] using h
    subst h2
    refine ⟨fun _ => ?_, fun hff => by simp at hff⟩
    rw [rebuildAssetPath_path,
      pathJoin_eq hp (wf_get_name_ne_nil hwfF) (wf_get_name_getLast hwfF)]
  | false =>
    cases hm : loc.main with
    | none => simp [Locale.to_locale_asset_path, hm] at h
    | some m =>
      have h2 : rebuildAssetPath ap (pathJoin m.get_name ap.path) = out := by
        simpa [Locale.to_locale_asset_path, hm] using h
      subst h2
      refine ⟨fun htf => by simp at htf, fun _ => ⟨m, rfl, ?_⟩⟩
      have hwf := hwfM m hm
      rw [rebuildAssetPath_path,
        pathJoin_eq hp (wf_get_name_ne_nil hwf) (wf_get_name_getLast hwf)]

/-- C3, witness for the amended theorem. -/
theorem resolve_prepends_language_segment_witness :
    langEn.wf = true ∧
    ∃ m, (Locale.mk (some langFrCA) langEn).main = some m ∧
      ("fr-CA/x.png" : String) = m.get_name ++ "/" ++ "x.png" := by
  refine ⟨by decide, ?_⟩
  exact (resolve_prepends_language_segment.1 ⟨some langFrCA, langEn⟩
    ⟨none, "x.png", none⟩ false ⟨none, "fr-CA/x.png", none⟩ (by decide)
    (by intro m hm; cases hm; decide) (by decide) (by decide)).2 rfl

/-- C4.  A successful resolve carries the input path's source identifier
and label over to the output unchanged. -/
theorem resolve_preserves_source_and_label (loc : Locale) (ap : AssetPath)
    (uf : Bool) (out : AssetPath)
    (h : loc.to_locale_asset_path ap uf = .ok out) :
    out.source = ap.source ∧ out.label = ap.label := by
  cases uf with
  | true =>
    have h2 : rebuildAssetPath ap (pathJoin loc.fallback.get_name ap.path) = out := by
      simpa [Locale.to_locale_asset_path] using h
    subst h2
    exact ⟨rebuildAssetPath_source ap _, rebuildAssetPath_label ap _⟩
  | false =>
    cases hm : loc.main with
    | none => simp [Locale.to_locale_asset_path, hm] at h
    | some m =>
      have h2 : rebuildAssetPath ap (pathJoin m.get_name ap.path) = out := by
        simpa [Locale.to_locale_asset_path, hm] using h
      subst h2
      exact ⟨rebuildAssetPath_source ap _, rebuildAssetPath_label ap _⟩

/-- C4, witness. -/
theorem resolve_preserves_source_and_label_witness :
    (Locale.mk (some langFr) langEn).to_locale_asset_path
        ⟨some "embedded", "a.png", some "mesh"⟩ false
      = .ok ⟨some "embedded", "fr/a.png", some "mesh"⟩ ∧
    (some "embedded" : Option String) = some "embedded" ∧
    (some "mesh" : Option String) = some "mesh" := by
  refine ⟨by decide, ?_⟩
  exact resolve_preserves_source_and_label ⟨some langFr, langEn⟩
    ⟨some "embedded", "a.png", some "mesh"⟩ false
    ⟨some "embedded", "fr/a.png", some "mesh"⟩ (by decide)

/-- Evaluation of the identifier parser once the dash-split of the input
is known. -/
theorem parseLanguageIdentifier_eq (s : List Char) (lang : Subtag)
    (rest : List Subtag) (hsp : splitDash s = lang :: rest) :
    parseLanguageIdentifier s =
      if isLanguageSubtag lang = true then
        match parseSubtagsTail rest 0 with
        | .ok (sc, re, va) => .ok ⟨canonLower lang, sc, re, va⟩
        | .error e => .error e
      else .error .InvalidLanguage := by
  unfold parseLanguageIdentifier
  rw [hsp]

/-- C5.  Parsing any string, the empty and non-ASCII ones included, is a
total operation of the embedding (a Lean function, so no abort path): it
returns either a valid tag or one of the error variants, and the variant
is consistent with which subtag is malformed — `InvalidLanguage` exactly
when the leading subtag fails the language validator, `InvalidSubtag`
when the leading subtag is fine and a later subtag fails. -/
theorem language_new_total_error_classification (s : String) :
    (∃ l, Language.new s = Except.ok l) ∨
    (Language.new s = Except.error LanguageError.InvalidLanguage ∧
      isLanguageSubtag ((splitDash s.data).headD []) = false) ∨
    (Language.new s = Except.error LanguageError.InvalidSubtag ∧
      isLanguageSubtag ((splitDash s.data).headD []) = true) := by
  cases hsp : splitDash s.data with
  | nil => exact absurd hsp (splitDash_ne_nil _)
  | cons lang rest =>
    have heq := parseLanguageIdentifier_eq s.data lang rest hsp
    by_cases hl : isLanguageSubtag lang = true
    · rw [if_pos hl] at heq
      cases hrec : parseSubtagsTail rest 0 with
      | ok v =>
        obtain ⟨sc, re, va⟩ := v
        rw [hrec] at heq
        refine Or.inl ⟨⟨⟨canonLower lang, sc, re, va⟩⟩, ?_⟩
        unfold Language.new
        simp only [heq]
      | error e =>
        have he := parseSubtagsTail_error rest 0 hrec
        subst he
        rw [hrec] at heq
        refine Or.inr (Or.inr ⟨?_, by simp only [List.headD_cons]; exact hl⟩)
        unfold Language.new
        simp only [heq]
    · rw [if_neg hl] at heq
      refine Or.inr (Or.inl ⟨?_, ?_⟩)
      · unfold Language.new
        simp only [heq]
      · simp only [List.headD_cons]
        simpa using hl

/-- C6.  Reparsing the canonical serialized form of a successfully parsed
tag succeeds and yields the same tag, so `parse (canonical_form (parse s))
= parse s` for every accepted string. -/
theorem language_new_roundtrip_stable (s : String) (l : Language)
    (h : Language.new s = Except.ok l) :
    Language.new l.get_name = Except.ok l := by
  unfold Language.new at h ⊢
  cases hp : parseLanguageIdentifier s.data with
  | ok lid =>
    rw [hp] at h
    simp only [Except.ok.injEq] at h
    subst h
    have hcanon := parse_isCanon hp
    have : (Language.get_name ⟨lid⟩).data = canonicalForm lid := rfl
    rw [this, parse_canonicalForm hcanon]
  | error e => rw [hp] at h; simp at h

/-- C6, witness. -/
theorem language_new_roundtrip_stable_witness :
    Language.new "fr-CA" = Except.ok langFrCA ∧
    Language.new langFrCA.get_name = Except.ok langFrCA :=
  ⟨by decide, language_new_roundtrip_stable "fr-CA" langFrCA (by decide)⟩

/-- C7.  A freshly constructed locale has no main language and its
fallback is the mapping of the language enumeration's default value. -/
theorem locale_default_state (Languages : Type) [Inhabited Languages]
    (map : Languages → Language) :
    (Locale.default Languages map).main = none ∧
    (Locale.default Languages map).fallback = map Inhabited.default :=
  ⟨rfl, rfl⟩

/-- C8.  The claim states that a `set_main` and a `set_fallback` call may
be issued in either order with the same resulting state.  On a fresh
locale the code violates this: issuing `set_fallback` first aborts (the
unconditional unwrap of the unset `main`), while `set_main` first makes
both calls succeed.  This theorem evaluates the embedded code on both
orders at that failing input. -/
theorem set_call_order_not_interchangeable :
    Locale.set_fallback ⟨none, langEn⟩ langEs = none ∧
    Locale.set_fallback (Locale.set_main ⟨none, langEn⟩ langFr).1 langEs
      = some (⟨some langFr, langEs⟩, false) := by
  exact ⟨rfl, by decide⟩

/-- C9, counterexample.  The claim asserts that from every fresh locale
the sequence `set_main(fr)`, `set_fallback(fr)` emits exactly one
collision warning.  When the enumeration's default maps to `fr` — as in
the repository's own example, whose default is `Français` — the fresh
fallback already equals `fr`, so `set_main(fr)` warns as well: both calls
warn, two warnings instead of one. -/
theorem collision_warning_double_counterexample :
    Locale.set_main ⟨none, langFr⟩ langFr = (⟨some langFr, langFr⟩, true) ∧
    Locale.set_fallback ⟨some langFr, langFr⟩ langFr
      = some (⟨some langFr, langFr⟩, true) :=
  ⟨by decide, by decide⟩

/-- C9, amended.  From a fresh locale whose default fallback differs from
`fr`, the sequence `set_main(fr)`, `set_fallback(fr)` emits exactly one
collision warning, on the `set_fallback` call, and a subsequent
`set_fallback(en)` emits none; each call returns the plain field update,
so the warning never alters the state and no call fails. -/
theorem collision_warning_sequence (fb : Language) (hfb : fb ≠ langFr) :
    Locale.set_main ⟨none, fb⟩ langFr = (⟨some langFr, fb⟩, false) ∧
    Locale.set_fallback ⟨some langFr, fb⟩ langFr
      = some (⟨some langFr, langFr⟩, true) ∧
    Locale.set_fallback ⟨some langFr, langFr⟩ langEn
      = some (⟨some langFr, langEn⟩, false) := by
  refine ⟨?_, rfl, by decide⟩
  show ((⟨some langFr, fb⟩ : Locale), decide (fb = langFr))
    = ((⟨some langFr, fb⟩ : Locale), false)
  rw [decide_eq_false hfb]

/-- C9, witness for the amended theorem. -/
theorem collision_warning_sequence_witness :
    langEn ≠ langFr ∧
    (Locale.set_main ⟨none, langEn⟩ langFr = (⟨some langFr, langEn⟩, false) ∧
      Locale.set_fallback ⟨some langFr, langEn⟩ langFr
        = some (⟨some langFr, langFr⟩, true) ∧
      Locale.set_fallback ⟨some langFr, langFr⟩ langEn
        = some (⟨some langFr, langEn⟩, false)) :=
  ⟨by decide, collision_warning_sequence langEn (by decide)⟩

/-- C10.  Once the main language is set it stays set: `set_main` leaves
`main` a `Some` and does not touch `fallback`; `set_fallback` (which
succeeds whenever `main` is set) does not touch `main`, so `main` stays
the same `Some`.  The accessors and `to_locale_asset_path` take the
locale by shared reference and are embedded as pure functions of it, so
they cannot modify the state at all. -/
theorem main_never_unset (s : Locale) (l : Language)
    (h : s.main.isSome = true) :
    (s.set_main l).1.main.isSome = true ∧
    (s.set_main l).1.fallback = s.fallback ∧
    (s.set_fallback l).isSome = true ∧
    ∀ r, s.set_fallback l = some r →
      r.1.main = s.main ∧ r.1.main.isSome = true := by
  obtain ⟨m, hm⟩ := Option.isSome_iff_exists.mp h
  refine ⟨rfl, rfl, ?_, ?_⟩
  · simp [Locale.set_fallback, hm]
  · intro r hr
    simp only [Locale.set_fallback, hm, Option.some.injEq] at hr
    subst hr
    simp [hm]

/-- C10, witness. -/
theorem main_never_unset_witness :
    (Locale.mk (some langFr) langEn).main.isSome = true ∧
    (((Locale.mk (some langFr) langEn).set_main langEs).1.main.isSome = true ∧
      ((Locale.mk (some langFr) langEn).set_main langEs).1.fallback = langEn ∧
      ((Locale.mk (some langFr) langEn).set_fallback langEs).isSome = true ∧
      ∀ r, (Locale.mk (some langFr) langEn).set_fallback langEs = some r →
        r.1.main = (Locale.mk (some langFr) langEn).main ∧
        r.1.main.isSome = true) :=
  ⟨by decide, main_never_unset ⟨some langFr, langEn⟩ langEs (by decide)⟩

end BevyI18n
